/-
Verification of the UDPtrys sensor-frame tooling.

The C++ sources are shallowly embedded: buffers are lists of byte values
(naturals, with explicit truncation where the C integer width matters),
per-packet loops become structural recursion, and the listener state that
the main loops keep in local variables becomes explicit state records.
-/
import Mathlib

set_option maxRecDepth 40000

namespace UDPtrys

/-! ## Little-endian reads (le_to_h_u16 / le_to_h_u32 after memcpy) -/

/-- Two-byte little-endian read, as done by memcpy into a uint16 followed by
le_to_h_u16 on a little-endian host. -/
def le16 (b0 b1 : Nat) : Nat := b0 + 256 * b1

/-- Four-byte little-endian read, as done by memcpy into a uint32 followed by
le_to_h_u32 on a little-endian host. -/
def le32 (b0 b1 b2 b3 : Nat) : Nat := b0 + 256 * b1 + 65536 * b2 + 16777216 * b3

/-! ## Measurement point decoding (process_packet_stack, parse.cpp and
parse_checksum3.cpp: the per-point body of the parsing loop) -/

structure MeasurementPoint where
  distance_mm : Nat
  status_flags : Nat
  rssi : Nat
deriving DecidableEq

/-- Decode of one 4-byte point record, as in the loop body of
process_packet_stack: the first two bytes are read little-endian into
dist_status, distance is its low 13 bits, status the next 3 bits, and the
last two bytes are the little-endian intensity. -/
def decode_point (b0 b1 b2 b3 : Nat) : MeasurementPoint :=
  let dist_status := le16 b0 b1
  { distance_mm := dist_status &&& 0x1FFF
    status_flags := (dist_status >>> 13) &&& 0x07
    rssi := le16 b2 b3 }

/-! ## XOR checksum (parse_checksum3.cpp) -/

/-- Running XOR of all bytes, from calculate_xor_checksum. -/
def calculate_xor_checksum (data : List Nat) : Nat :=
  data.foldl (fun c b => c ^^^ b) 0

/-- XOR-variant verify_checksum of parse_checksum3.cpp: reject when the
packet is smaller than the 1-byte checksum, otherwise compare the XOR of
all bytes but the last with the last byte. -/
def verify_checksum_xor (packet : List Nat) : Bool :=
  if packet.length < 1 then false
  else
    let data_length := packet.length - 1
    calculate_xor_checksum (packet.take data_length) == packet.getD data_length 0

/-! ## 8-bit sum checksum (8bit_check.cpp) -/

/-- Byte sum modulo 256, from calculate_sum_checksum (the uint8_t
accumulator wraps at 256). -/
def calculate_sum_checksum (data : List Nat) : Nat :=
  data.foldl (fun s b => (s + b) % 256) 0

/-- Sum-variant verify_checksum of 8bit_check.cpp: reject when the packet
is not strictly larger than the 80-byte preamble-plus-header and the 1-byte
checksum; otherwise sum the bytes between offset 80 and the final byte and
compare the raw sum against the final byte. -/
def verify_checksum_sum8 (packet : List Nat) : Bool :=
  if packet.length ≤ 80 + 1 then false
  else
    let data_length := packet.length - 80 - 1
    calculate_sum_checksum ((packet.drop 80).take data_length)
      == packet.getD (packet.length - 1) 0

/-! ## CRC32 (parse_checksum.cpp) -/

/-- One inner iteration of initialize_crc32_table: shift right and
conditionally XOR the reversed polynomial 0xEDB88320. -/
def crc32_round (c : Nat) : Nat :=
  if c % 2 = 1 then 0xEDB88320 ^^^ (c >>> 1) else c >>> 1

/-- One entry of the CRC32 table: the inner j-loop of
initialize_crc32_table runs crc32_round eight times on the index. -/
def crc32_entry (i : Nat) : Nat := crc32_round^[8] i

/-- The table filled by initialize_crc32_table. -/
def crc32_table : List Nat := (List.range 256).map crc32_entry

/-- calculate_crc32: start from 0xFFFFFFFF, per byte take
table[(crc XOR byte) AND 0xFF] XOR (crc shifted right by 8), and finish
with a final XOR of 0xFFFFFFFF. -/
def calculate_crc32 (data : List Nat) : Nat :=
  (data.foldl (fun crc b => crc32_table.getD ((crc ^^^ b) &&& 0xFF) 0 ^^^ (crc >>> 8))
    0xFFFFFFFF) ^^^ 0xFFFFFFFF

/-- CRC32-variant verify_checksum of parse_checksum.cpp: reject when the
packet is smaller than the 4-byte checksum, otherwise compare the CRC of
everything but the trailer with the little-endian trailer. -/
def verify_checksum_crc32 (packet : List Nat) : Bool :=
  if packet.length < 4 then false
  else
    let dl := packet.length - 4
    calculate_crc32 (packet.take dl)
      == le32 (packet.getD dl 0) (packet.getD (dl + 1) 0)
          (packet.getD (dl + 2) 0) (packet.getD (dl + 3) 0)

/-- Bit-serial reflected CRC-32 as the specification baseline: XOR the byte
into the running value and run eight single-bit rounds of the reversed
polynomial, with the usual initial value and final XOR. -/
def crc32_bitwise (data : List Nat) : Nat :=
  (data.foldl (fun crc b => crc32_round^[8] (crc ^^^ b)) 0xFFFFFFFF) ^^^ 0xFFFFFFFF

/-! ## CRC16 and frame check (checksum.cpp) -/

/-- One inner iteration of crc16_ccitt: shift left and conditionally XOR
polynomial 0x1021, truncated to the uint16 accumulator. -/
def crc16_round (c : Nat) : Nat :=
  if c &&& 0x8000 ≠ 0 then ((c <<< 1) ^^^ 0x1021) % 65536 else (c <<< 1) % 65536

/-- crc16_ccitt of checksum.cpp: initial value 0, XOR each byte into the
high half of the accumulator and run eight rounds. -/
def crc16_ccitt (data : List Nat) : Nat :=
  data.foldl (fun crc b => crc16_round^[8] ((crc ^^^ (b <<< 8)) % 65536)) 0

/-- check_checksum of checksum.cpp: reject frames shorter than the 20-byte
structure header; the expected CRC is the little-endian uint16 at offset 18
and the CRC is computed over all but the final two bytes. -/
def check_checksum (md : List Nat) : Bool :=
  if md.length < 20 then false
  else
    crc16_ccitt (md.take (md.length - 2)) == le16 (md.getD 18 0) (md.getD 19 0)

/-! ## Fixed-count assemblers (cnet.cpp and checksum.cpp main loops) -/

/-- One received packet in the cnet.cpp main loop: append the fragment,
bump the fragment counter, and on the third fragment emit the assembled
measurement and reset. The state is (fragmentCounter, measurementData). -/
def cnet_accept (s : Nat × List Nat) (frag : List Nat) :
    (Nat × List Nat) × Option (List Nat) :=
  let buf := s.2 ++ frag
  let count := s.1 + 1
  if count = 3 then ((0, []), some buf) else ((count, buf), none)

/-- One received packet in the checksum.cpp main loop: fragments of at most
24 bytes are discarded with the state unchanged; otherwise the payload past
the 24-byte header is appended and, on the third fragment, check_checksum
decides the emitted verdict and the state resets either way. -/
def checksum_step (s : Nat × List Nat) (frag : List Nat) :
    (Nat × List Nat) × Option Bool :=
  if 24 < frag.length then
    let buf := s.2 ++ frag.drop 24
    let count := s.1 + 1
    if count = 3 then ((0, []), some (check_checksum buf)) else ((count, buf), none)
  else (s, none)

/-! ## Start/end-marker capture (start_end.cpp) -/

/-- containsFF07 of latency_measurer.cpp and start_end.cpp: scan adjacent
byte pairs for 0xFF followed by 0x07; buffers shorter than two bytes never
match. -/
def containsFF07 : List Nat → Bool
  | b :: c :: rest => (b == 0xFF && c == 0x07) || containsFF07 (c :: rest)
  | _ => false

/-- endsWith0029 of start_end.cpp: at least two bytes, and the final two
bytes are 0x00 then 0x29. -/
def endsWith0029 (v : List Nat) : Bool :=
  decide (2 ≤ v.length) && (v.getD (v.length - 2) 0 == 0x00)
    && (v.getD (v.length - 1) 0 == 0x29)

/-- State of the start_end.cpp processing loop: the capturing flag and
measureBuffer globals, the measureCounter, and the captured measurements
announced so far. -/
structure SEState where
  capturing : Bool
  measureBuffer : List Nat
  measureCounter : Nat
  finished : List (List Nat)
deriving DecidableEq

/-- Initial state of start_end.cpp before any packet arrives. -/
def seInit : SEState := ⟨false, [], 0, []⟩

/-- The capturing branch of the start_end.cpp byte loop: push the byte onto
measureBuffer; if the buffer now ends with 0x00 0x29 the measurement is
complete, the counter is bumped and capturing stops with a cleared buffer. -/
def appendByte (s : SEState) (b : Nat) : SEState :=
  let buf := s.measureBuffer ++ [b]
  if endsWith0029 buf then
    { capturing := false, measureBuffer := [], measureCounter := s.measureCounter + 1
      finished := s.finished ++ [buf] }
  else { s with measureBuffer := buf }

/-- The byte loop of start_end.cpp over one received fragment. Detection of
the 0xFF 0x07 start marker requires not capturing and a next byte within
the same fragment (the loop guard i < received - 1); it seeds the buffer
with the marker and skips the consumed pair. While capturing, every byte is
appended via appendByte. Otherwise the byte is skipped. -/
def processBytes (s : SEState) : List Nat → SEState
  | [] => s
  | [b] => if s.capturing then appendByte s b else s
  | b :: c :: rest =>
    if s.capturing = false ∧ b = 0xFF ∧ c = 0x07 then
      processBytes { s with capturing := true, measureBuffer := [0xFF, 0x07] } rest
    else if s.capturing then
      processBytes (appendByte s b) (c :: rest)
    else
      processBytes s (c :: rest)

/-- A whole run of the start_end.cpp listener over a sequence of received
fragments. -/
def processRun (s : SEState) (frags : List (List Nat)) : SEState :=
  frags.foldl processBytes s

/-- Proof predicate: no portion of the buffer accumulated so far, the full
buffer included, already ends with the end marker. -/
def noEarlyEnd (buf : List Nat) : Prop :=
  ∀ k, k ≤ buf.length → endsWith0029 (buf.take k) = false

/-- Proof predicate: a finalized frame ends with the end marker and no
shorter portion of it does. -/
def goodFrame (B : List Nat) : Prop :=
  endsWith0029 B = true ∧ ∀ k, k < B.length → endsWith0029 (B.take k) = false

/-- Invariant of the start_end.cpp loop: while capturing the buffer has no
early end marker, and every announced measurement is a good frame. -/
def SEInv (s : SEState) : Prop :=
  (s.capturing = true → noEarlyEnd s.measureBuffer) ∧ ∀ B ∈ s.finished, goodFrame B

/-! ## Theorems -/

theorem foldl_xor_shift (l : List Nat) :
    ∀ a, l.foldl (fun c b => c ^^^ b) a = a ^^^ l.foldl (fun c b => c ^^^ b) 0 := by
  induction l with
  | nil => intro a; simp
  | cons b t ih =>
    intro a
    simp only [List.foldl_cons]
    rw [ih (a ^^^ b), ih (0 ^^^ b), Nat.zero_xor, Nat.xor_assoc]

theorem drop_length_sub_one {l : List Nat} (h : l ≠ []) :
    l.drop (l.length - 1) = [l.getD (l.length - 1) 0] := by
  induction l with
  | nil => exact absurd rfl h
  | cons a t ih =>
    cases t with
    | nil => simp
    | cons c r =>
      have ht : c :: r ≠ [] := by simp
      have hlen : (a :: c :: r).length - 1 = (c :: r).length - 1 + 1 := by
        simp [Nat.succ_sub_one]
      rw [hlen, List.drop_succ_cons, List.getD_cons_succ, ih ht]

theorem take_append_of_le {l l2 : List Nat} {k : Nat} (h : k ≤ l.length) :
    (l ++ l2).take k = l.take k := by
  induction l generalizing k with
  | nil =>
    have hk : k = 0 := by simpa using h
    subst hk
    simp
  | cons a t ih =>
    cases k with
    | zero => simp
    | succ k =>
      simp only [List.cons_append, List.take_succ_cons, List.cons.injEq, true_and]
      exact ih (by simpa using h)

/-- Claim C1 (counterexample): the buffer consisting of the single byte 0
has length equal to the xor8 trailer width, yet verify_checksum_xor accepts
it, because the size guard in parse_checksum3.cpp is a strict inequality. -/
theorem C1_cex : ([0] : List Nat).length ≤ 1 ∧ verify_checksum_xor [0] = true := by
  decide

/-- Claim C1 (amended): each verify variant returns false when the buffer
is strictly smaller than its own minimum: the CRC32 variant when the length
is below the 4-byte trailer, the xor8 variant when the length is below the
1-byte trailer, and the 8-bit sum variant whenever the length is at most
the 80-byte header region plus its 1-byte trailer. When the length equals
the trailer width the CRC32 and xor8 variants instead compare an
empty-payload check value against the trailer and may accept. All variants
are total functions and never throw. -/
theorem C1_size_guards (B : List Nat) :
    (B.length < 4 → verify_checksum_crc32 B = false) ∧
    (B.length < 1 → verify_checksum_xor B = false) ∧
    (B.length ≤ 81 → verify_checksum_sum8 B = false) := by
  refine ⟨fun h => ?_, fun h => ?_, fun h => ?_⟩
  · unfold verify_checksum_crc32
    rw [if_pos h]
  · unfold verify_checksum_xor
    rw [if_pos h]
  · unfold verify_checksum_sum8
    rw [if_pos (by omega : B.length ≤ 80 + 1)]

/-- Claim C1 (witness): all three size guards fire on the empty buffer. -/
theorem C1_size_guards_witness :
    verify_checksum_crc32 [] = false ∧ verify_checksum_xor [] = false ∧
      verify_checksum_sum8 [] = false :=
  ⟨(C1_size_guards []).1 (by decide), (C1_size_guards []).2.1 (by decide),
    (C1_size_guards []).2.2 (by decide)⟩

/-- Claim C3 (counterexample): decoding the record 0x34 0x12 0x64 0x00 does
not give distance 564 and status 1, because 0x1234 has bit 13 clear:
0x1234 AND 0x1FFF is 0x1234 itself and the status bits are 0. -/
theorem C3_cex :
    ¬ ((decode_point 0x34 0x12 0x64 0x00).distance_mm = 564 ∧
       (decode_point 0x34 0x12 0x64 0x00).status_flags = 1 ∧
       (decode_point 0x34 0x12 0x64 0x00).rssi = 100) := by
  decide

/-- Claim C3 (amended): decoding the 4-byte record 0x34 0x12 0x64 0x00
yields distance_mm 0x1234 = 4660, status 0 and intensity 100: the
little-endian first field 0x1234 is below 0x2000, so the 13-bit mask leaves
it unchanged and the upper three bits are zero. -/
theorem C3_point_decode :
    decode_point 0x34 0x12 0x64 0x00 = ⟨4660, 0, 100⟩ := by
  decide

/-- Claim C4 (counterexample): verify in 8bit_check.cpp rejects the 4-byte
buffer 01 02 03 F9 outright, because its guard requires more than 81 bytes;
the claim asserts it is accepted. -/
theorem C4_cex : verify_checksum_sum8 [0x01, 0x02, 0x03, 0xF9] = false := by
  decide

/-- Claim C4 (amended): the 8-bit variant of 8bit_check.cpp uses the raw
modulo-256 byte sum of the payload after the 80-byte preamble-plus-header,
not its ones complement, and rejects any buffer of at most 81 bytes: an
80-byte header followed by payload 01 02 03 verifies with trailer 0x06 (the
raw sum) and fails with trailer 0xF9 (the complement), while both 4-byte
buffers of the original scenario are rejected by the size guard. -/
theorem C4_sum8_raw :
    verify_checksum_sum8 (List.replicate 80 0 ++ [0x01, 0x02, 0x03, 0x06]) = true ∧
    verify_checksum_sum8 (List.replicate 80 0 ++ [0x01, 0x02, 0x03, 0xF9]) = false ∧
    verify_checksum_sum8 [0x01, 0x02, 0x03, 0xF9] = false ∧
    verify_checksum_sum8 [0x01, 0x02, 0x03, 0xF8] = false := by
  decide

/-- Claim C5: with the fixed count of three, any three fragments of ten
bytes each produce no completion on the first two accepts and a completed
buffer of thirty bytes exactly on the third. -/
theorem C5_fixed_count (f1 f2 f3 : List Nat)
    (h1 : f1.length = 10) (h2 : f2.length = 10) (h3 : f3.length = 10) :
    (cnet_accept (0, []) f1).2 = none ∧
    (cnet_accept (cnet_accept (0, []) f1).1 f2).2 = none ∧
    (cnet_accept (cnet_accept (cnet_accept (0, []) f1).1 f2).1 f3).2 =
      some ((f1 ++ f2) ++ f3) ∧
    ((f1 ++ f2) ++ f3).length = 30 := by
  have s1 : cnet_accept (0, []) f1 = ((1, f1), none) := by
    simp [cnet_accept]
  have s2 : cnet_accept (1, f1) f2 = ((2, f1 ++ f2), none) := by
    simp [cnet_accept]
  have s3 : cnet_accept (2, f1 ++ f2) f3 = ((0, []), some ((f1 ++ f2) ++ f3)) := by
    simp [cnet_accept]
  rw [s1, s2, s3]
  simp [h1, h2, h3]

/-- Claim C5 (witness): three concrete ten-byte fragments complete on the
third accept with a thirty-byte buffer. -/
theorem C5_fixed_count_witness :
    (cnet_accept (0, []) (List.replicate 10 1)).2 = none ∧
    (cnet_accept (cnet_accept (0, []) (List.replicate 10 1)).1 (List.replicate 10 2)).2 = none ∧
    (cnet_accept (cnet_accept (cnet_accept (0, []) (List.replicate 10 1)).1
        (List.replicate 10 2)).1 (List.replicate 10 3)).2 =
      some ((List.replicate 10 1 ++ List.replicate 10 2) ++ List.replicate 10 3) ∧
    ((List.replicate 10 1 ++ List.replicate 10 2) ++ List.replicate 10 3).length = 30 :=
  C5_fixed_count (List.replicate 10 1) (List.replicate 10 2) (List.replicate 10 3)
    (by decide) (by decide) (by decide)

/-- Claim C10: for any buffer with at least one byte, the xor8 verify
accepts exactly when the XOR of all bytes, the trailing check byte
included, is zero. -/
theorem C10_xor8_iff (B : List Nat) (h : 1 ≤ B.length) :
    verify_checksum_xor B = true ↔ calculate_xor_checksum B = 0 := by
  have hne : B ≠ [] := by
    cases B with
    | nil => simp at h
    | cons a t => simp
  have hsplit : B.take (B.length - 1) ++ [B.getD (B.length - 1) 0] = B := by
    conv_rhs => rw [← List.take_append_drop (B.length - 1) B]
    rw [drop_length_sub_one hne]
  have hx : calculate_xor_checksum B =
      calculate_xor_checksum (B.take (B.length - 1)) ^^^ B.getD (B.length - 1) 0 := by
    conv_lhs => rw [← hsplit]
    unfold calculate_xor_checksum
    rw [List.foldl_append, List.foldl_cons, List.foldl_nil]
  unfold verify_checksum_xor
  rw [if_neg (by omega : ¬ B.length < 1)]
  rw [hx, beq_iff_eq, ← Nat.xor_eq_zero]

/-- Claim C10 (witness): a concrete buffer whose bytes XOR to zero is
accepted. -/
theorem C10_xor8_iff_witness :
    verify_checksum_xor [1, 2, 3, 0] = true ↔ calculate_xor_checksum [1, 2, 3, 0] = 0 :=
  C10_xor8_iff [1, 2, 3, 0] (by decide)

/-- Claim C2 (counterexample): a fragment carrying a start marker, payload,
a second start marker and then the end marker is captured as one seven-byte
measurement containing both markers: the partial buffer is not discarded
and capture does not restart at the second marker, so two frames are merged
rather than the finalized buffer being the four bytes from the second
marker on. -/
theorem C2_cex :
    (processBytes seInit [0xFF, 0x07, 0xAA, 0xFF, 0x07, 0x00, 0x29]).finished =
      [[0xFF, 0x07, 0xAA, 0xFF, 0x07, 0x00, 0x29]] ∧
    (processBytes seInit [0xFF, 0x07, 0xAA, 0xFF, 0x07, 0x00, 0x29]).finished ≠
      [[0xFF, 0x07, 0x00, 0x29]] := by
  decide

/-- Claim C2 (amended): while the detector is CAPTURING no start-marker
detection takes place: every byte of the fragment, a 0xFF 0x07 pair
included, is simply appended to the current buffer (finalizing it only
when the end marker appears), so a frame arriving mid-capture is merged
into the current buffer and no PrematureEnd discard or restart occurs. -/
theorem C2_no_redetect (s : SEState) (b : Nat) (rest : List Nat)
    (h : s.capturing = true) :
    processBytes s (b :: rest) = processBytes (appendByte s b) rest := by
  cases rest with
  | nil => simp [processBytes, h]
  | cons c r => simp [processBytes, h]

/-- Claim C2 (witness): a capturing state appends the next byte, marker
byte or not. -/
theorem C2_no_redetect_witness :
    SEState.capturing ⟨true, [0xFF, 0x07], 0, []⟩ = true ∧
    processBytes ⟨true, [0xFF, 0x07], 0, []⟩ [0xFF] =
      processBytes (appendByte ⟨true, [0xFF, 0x07], 0, []⟩ 0xFF) [] :=
  ⟨rfl, C2_no_redetect ⟨true, [0xFF, 0x07], 0, []⟩ 0xFF [] rfl⟩

/-- Claim C6: whenever a checksum.cpp step completes a three-fragment
measurement whose check fails, the assembled buffer is discarded and the
state returns to the idle pair of fragment count zero and empty buffer;
the step is a total function, so the failure never escapes as an error. -/
theorem C6_reject_resets (s : Nat × List Nat) (frag : List Nat)
    (h : (checksum_step s frag).2 = some false) :
    (checksum_step s frag).1 = (0, []) := by
  unfold checksum_step at h ⊢
  by_cases h24 : 24 < frag.length
  · rw [if_pos h24] at h ⊢
    by_cases hcnt : s.1 + 1 = 3
    · rw [if_pos hcnt]
    · rw [if_neg hcnt] at h
      simp at h
  · rw [if_neg h24] at h
    simp at h

/-- Claim C6 (witness): a third fragment completing a corrupted
measurement resets the assembler state. -/
theorem C6_reject_resets_witness :
    (checksum_step (2, List.replicate 20 0)
      (List.replicate 24 0 ++ [1, 2, 3, 4, 5])).1 = (0, []) :=
  C6_reject_resets (2, List.replicate 20 0)
    (List.replicate 24 0 ++ [1, 2, 3, 4, 5]) (by decide)

theorem processBytes_idle (l : List Nat) :
    ∀ s : SEState, s.capturing = false → containsFF07 l = false →
      processBytes s l = s := by
  induction l with
  | nil => intro s _ _; rfl
  | cons b t ih =>
    cases t with
    | nil =>
      intro s hs _
      simp [processBytes, hs]
    | cons c r =>
      intro s hs hc
      have hpair : (b == 0xFF && c == 0x07) = false ∧ containsFF07 (c :: r) = false := by
        simpa [containsFF07, Bool.or_eq_false_iff] using hc
      have hnot : ¬ (s.capturing = false ∧ b = 0xFF ∧ c = 0x07) := by
        rintro ⟨_, hb, hcc⟩
        subst hb; subst hcc
        simp at hpair
      show processBytes s (b :: c :: r) = s
      unfold processBytes
      rw [if_neg hnot, if_neg (by simp [hs])]
      exact ih s hs hpair.2

/-- Claim C9 (counterexample): the first fragment ends with 0xFF and the
second begins with 0x07, yet a capture has started after the two fragments
are processed, because the first fragment also contains the marker pair
inside it; the claim as stated asserts no capture is started by either
fragment. -/
theorem C9_cex :
    ([0xFF, 0x07, 0xFF] : List Nat).getD 2 0 = 0xFF ∧
    ([0x07] : List Nat).getD 0 0 = 0x07 ∧
    (processRun seInit [[0xFF, 0x07, 0xFF], [0x07]]).capturing = true := by
  decide

/-- Claim C9 (amended): detection requires both marker bytes inside one
fragment. If the detector is idle and neither fragment contains the pair
0xFF 0x07 wholly within itself, then even when the first fragment ends
with 0xFF and the second starts with 0x07 the split marker is never
detected and no capture is started by either fragment. -/
theorem C9_split_marker (f1 f2 : List Nat)
    (h1 : containsFF07 f1 = false) (h2 : containsFF07 f2 = false)
    (_hl : f1.getLast? = some 0xFF) (_hh : f2.head? = some 0x07) :
    processRun seInit [f1, f2] = seInit := by
  unfold processRun
  simp only [List.foldl_cons, List.foldl_nil]
  rw [processBytes_idle f1 seInit rfl h1, processBytes_idle f2 seInit rfl h2]

/-- Claim C9 (witness): a marker split across the boundary of two concrete
markerless fragments starts no capture. -/
theorem C9_split_marker_witness :
    processRun seInit [[0xAA, 0xFF], [0x07, 0xBB]] = seInit :=
  C9_split_marker [0xAA, 0xFF] [0x07, 0xBB] (by decide) (by decide)
    (by decide) (by decide)

theorem shiftRight_xor_distrib (x y n : Nat) :
    (x ^^^ y) >>> n = (x >>> n) ^^^ (y >>> n) := by
  apply Nat.eq_of_testBit_eq
  intro i
  simp [Nat.testBit_shiftRight, Nat.testBit_xor]

theorem nat_xor_left_comm (p a b : Nat) : p ^^^ (a ^^^ b) = a ^^^ (p ^^^ b) := by
  apply Nat.eq_of_testBit_eq
  intro i
  simp only [Nat.testBit_xor]
  cases p.testBit i <;> cases a.testBit i <;> cases b.testBit i <;> rfl

theorem nat_xor_cancel_pair (p a b : Nat) : (p ^^^ a) ^^^ (p ^^^ b) = a ^^^ b := by
  apply Nat.eq_of_testBit_eq
  intro i
  simp only [Nat.testBit_xor]
  cases p.testBit i <;> cases a.testBit i <;> cases b.testBit i <;> rfl

theorem crc32_round_xor (x y : Nat) :
    crc32_round (x ^^^ y) = crc32_round x ^^^ crc32_round y := by
  unfold crc32_round
  have hxy : ((x ^^^ y) % 2 = 1) ↔ ¬ (x % 2 = 1 ↔ y % 2 = 1) := Nat.xor_mod_two_eq_one
  rcases Nat.mod_two_eq_zero_or_one x with hx | hx <;>
    rcases Nat.mod_two_eq_zero_or_one y with hy | hy
  · have hc : ¬ ((x ^^^ y) % 2 = 1) := by rw [hxy]; simp [hx, hy]
    rw [if_neg hc, if_neg (by omega : ¬ x % 2 = 1), if_neg (by omega : ¬ y % 2 = 1),
      shiftRight_xor_distrib]
  · have hc : (x ^^^ y) % 2 = 1 := by rw [hxy]; simp [hx, hy]
    rw [if_pos hc, if_neg (by omega : ¬ x % 2 = 1), if_pos hy,
      shiftRight_xor_distrib, nat_xor_left_comm]
  · have hc : (x ^^^ y) % 2 = 1 := by rw [hxy]; simp [hx, hy]
    rw [if_pos hc, if_pos hx, if_neg (by omega : ¬ y % 2 = 1),
      shiftRight_xor_distrib, ← Nat.xor_assoc]
  · have hc : ¬ ((x ^^^ y) % 2 = 1) := by rw [hxy]; simp [hx, hy]
    rw [if_neg hc, if_pos hx, if_pos hy, shiftRight_xor_distrib,
      nat_xor_cancel_pair]

theorem crc32_rounds_xor (n x y : Nat) :
    crc32_round^[n] (x ^^^ y) = crc32_round^[n] x ^^^ crc32_round^[n] y := by
  induction n generalizing x y with
  | zero => simp
  | succ n ih =>
    rw [Function.iterate_succ_apply, Function.iterate_succ_apply,
      Function.iterate_succ_apply, crc32_round_xor, ih]

theorem crc32_round_shifted (a k : Nat) :
    crc32_round (a * 2 ^ (k + 1)) = a * 2 ^ k := by
  unfold crc32_round
  have heven : a * 2 ^ (k + 1) % 2 = 0 := by
    rw [Nat.pow_succ, ← Nat.mul_assoc]
    exact Nat.mul_mod_left _ 2
  rw [if_neg (by omega), Nat.shiftRight_eq_div_pow, Nat.pow_one, Nat.pow_succ,
    ← Nat.mul_assoc, Nat.mul_div_cancel _ (by omega)]

theorem crc32_rounds_shifted (k : Nat) :
    ∀ a, crc32_round^[k] (a * 2 ^ k) = a := by
  induction k with
  | zero => intro a; simp
  | succ k ih =>
    intro a
    rw [Function.iterate_succ_apply, crc32_round_shifted, ih]

theorem nat_split_low_high (c : Nat) : ((c >>> 8) * 2 ^ 8) ^^^ (c % 2 ^ 8) = c := by
  apply Nat.eq_of_testBit_eq
  intro i
  rw [← Nat.shiftLeft_eq]
  simp only [Nat.testBit_xor, Nat.testBit_shiftLeft, Nat.testBit_shiftRight,
    Nat.testBit_mod_two_pow]
  by_cases h : i < 8
  · have hn : ¬ 8 ≤ i := Nat.not_le.mpr h
    simp [h, hn]
  · have h8 : 8 ≤ i := Nat.not_lt.mp h
    simp [h, h8, Nat.add_sub_cancel' h8]

theorem mask_byte_eq_mod (c : Nat) : c &&& 0xFF = c % 2 ^ 8 := by
  have h : (0xFF : Nat) = 2 ^ 8 - 1 := by norm_num
  rw [h, Nat.and_pow_two_sub_one_eq_mod]

theorem crc32_table_getD (n : Nat) (h : n < 256) :
    crc32_table.getD n 0 = crc32_entry n := by
  unfold crc32_table
  rw [List.getD_eq_getElem?_getD, List.getElem?_map, List.getElem?_range h]
  rfl

theorem crc32_byte_step (crc b : Nat) (hb : b < 256) :
    crc32_table.getD ((crc ^^^ b) &&& 0xFF) 0 ^^^ (crc >>> 8) =
      crc32_round^[8] (crc ^^^ b) := by
  have hmask : (crc ^^^ b) &&& 0xFF < 256 :=
    Nat.lt_succ_of_le Nat.and_le_right
  rw [crc32_table_getD _ hmask]
  unfold crc32_entry
  rw [mask_byte_eq_mod]
  have hhi : (crc ^^^ b) >>> 8 = crc >>> 8 := by
    rw [shiftRight_xor_distrib]
    have : b >>> 8 = 0 := by
      rw [Nat.shiftRight_eq_div_pow]
      exact Nat.div_eq_of_lt (by norm_num at hb ⊢; omega)
    rw [this, Nat.xor_zero]
  conv_rhs => rw [← nat_split_low_high (crc ^^^ b)]
  rw [crc32_rounds_xor, crc32_rounds_shifted, hhi, Nat.xor_comm]

/-- Claim C7: the table-driven CRC32 of parse_checksum.cpp computes, for
every byte buffer, exactly the standard reflected CRC-32: the bit-serial
algorithm with reversed polynomial 0xEDB88320, initial value 0xFFFFFFFF
and final XOR 0xFFFFFFFF. -/
theorem C7_crc32_standard (data : List Nat) (hb : ∀ b ∈ data, b < 256) :
    calculate_crc32 data = crc32_bitwise data := by
  unfold calculate_crc32 crc32_bitwise
  have hfold : ∀ (l : List Nat) (crc : Nat), (∀ b ∈ l, b < 256) →
      l.foldl (fun crc b => crc32_table.getD ((crc ^^^ b) &&& 0xFF) 0 ^^^ (crc >>> 8)) crc =
        l.foldl (fun crc b => crc32_round^[8] (crc ^^^ b)) crc := by
    intro l
    induction l with
    | nil => intro crc _; rfl
    | cons b t ih =>
      intro crc hl
      simp only [List.foldl_cons]
      rw [crc32_byte_step crc b (hl b (by simp)), ih _ fun x hx => hl x (by simp [hx])]
  rw [hfold data 0xFFFFFFFF hb]

/-- Claim C7 (witness): the two computations agree on the classic
nine-byte check input. -/
theorem C7_crc32_standard_witness :
    (∀ b ∈ [0x31, 0x32, 0x33, 0x34, 0x35, 0x36, 0x37, 0x38, 0x39], b < 256) ∧
    calculate_crc32 [0x31, 0x32, 0x33, 0x34, 0x35, 0x36, 0x37, 0x38, 0x39] =
      crc32_bitwise [0x31, 0x32, 0x33, 0x34, 0x35, 0x36, 0x37, 0x38, 0x39] :=
  ⟨by decide, C7_crc32_standard _ (by decide)⟩

theorem noEarlyEnd_nil : noEarlyEnd [] := by
  intro k hk
  simp only [List.length_nil, Nat.le_zero] at hk
  subst hk
  decide

theorem noEarlyEnd_marker : noEarlyEnd [0xFF, 0x07] := by
  intro k hk
  simp only [List.length_cons, List.length_nil] at hk
  interval_cases k <;> decide

theorem appendByte_preserves (s : SEState) (b : Nat)
    (h1 : noEarlyEnd s.measureBuffer) (h2 : ∀ B ∈ s.finished, goodFrame B) :
    SEInv (appendByte s b) := by
  unfold appendByte
  by_cases he : endsWith0029 (s.measureBuffer ++ [b]) = true
  · rw [if_pos he]
    refine ⟨fun hcap => by simp at hcap, ?_⟩
    intro B hB
    rcases List.mem_append.mp hB with hB | hB
    · exact h2 B hB
    · have hBeq : B = s.measureBuffer ++ [b] := by simpa using hB
      subst hBeq
      refine ⟨he, fun k hk => ?_⟩
      have hk' : k ≤ s.measureBuffer.length := by
        simp only [List.length_append, List.length_cons, List.length_nil] at hk
        omega
      rw [take_append_of_le hk']
      exact h1 k hk'
  · rw [if_neg he]
    have he' : endsWith0029 (s.measureBuffer ++ [b]) = false := by
      simpa using he
    refine ⟨fun _ => fun k hk => ?_, h2⟩
    have hlen : k ≤ s.measureBuffer.length + 1 := by
      simpa using hk
    rcases Nat.lt_or_ge k (s.measureBuffer.length + 1) with hlt | hge
    · have hk' : k ≤ s.measureBuffer.length := by omega
      rw [take_append_of_le hk']
      exact h1 k hk'
    · have hkeq : k = (s.measureBuffer ++ [b]).length := by
        simp only [List.length_append, List.length_cons, List.length_nil]
        omega
      rw [hkeq, List.take_length]
      exact he'

theorem processBytes_preserves :
    ∀ (n : Nat) (l : List Nat), l.length ≤ n → ∀ s, SEInv s → SEInv (processBytes s l) := by
  intro n
  induction n with
  | zero =>
    intro l hl s hs
    have hnil : l = [] := List.length_eq_zero.mp (Nat.le_zero.mp hl)
    subst hnil
    simpa [processBytes] using hs
  | succ n ih =>
    intro l hl s hs
    rcases l with _ | ⟨b, _ | ⟨c, rest⟩⟩
    · simpa [processBytes] using hs
    · simp only [processBytes]
      by_cases hc : s.capturing = true
      · rw [if_pos hc]
        exact appendByte_preserves s b (hs.1 hc) hs.2
      · rw [if_neg hc]
        exact hs
    · simp only [processBytes]
      have hrest : rest.length ≤ n := by
        simp only [List.length_cons] at hl
        omega
      have hcrest : (c :: rest).length ≤ n := by
        simp only [List.length_cons] at hl ⊢
        omega
      by_cases hd : s.capturing = false ∧ b = 0xFF ∧ c = 0x07
      · rw [if_pos hd]
        exact ih rest hrest _ ⟨fun _ => noEarlyEnd_marker, hs.2⟩
      · rw [if_neg hd]
        by_cases hc : s.capturing = true
        · rw [if_pos hc]
          exact ih (c :: rest) hcrest _ (appendByte_preserves s b (hs.1 hc) hs.2)
        · rw [if_neg hc]
          exact ih (c :: rest) hcrest s hs

theorem processRun_preserves (frags : List (List Nat)) :
    ∀ s, SEInv s → SEInv (processRun s frags) := by
  induction frags with
  | nil => intro s hs; simpa [processRun] using hs
  | cons f t ih =>
    intro s hs
    simp only [processRun, List.foldl_cons]
    exact ih (processBytes s f) (processBytes_preserves f.length f le_rfl s hs)

/-- Claim C8: in any run of the start_end.cpp listener from the initial
state, every finalized measurement buffer ends with the two bytes 0x00
0x29, and no shorter portion of that buffer already ends with the pair:
capture terminates at the first occurrence of the trailing pair, whether
or not it is genuine frame data. -/
theorem C8_first_end_marker (frags : List (List Nat)) (B : List Nat)
    (hB : B ∈ (processRun seInit frags).finished) :
    endsWith0029 B = true ∧ ∀ k, k < B.length → endsWith0029 (B.take k) = false := by
  have hinit : SEInv seInit := by
    refine ⟨fun _ => noEarlyEnd_nil, ?_⟩
    intro B hB
    simp [seInit] at hB
  exact (processRun_preserves frags seInit hinit).2 B hB

/-- Claim C8 (witness): the spec scenario fragment finalizes the buffer
FF 07 10 20 00 29, which ends with the marker and has no earlier trailing
occurrence of it. -/
theorem C8_first_end_marker_witness :
    endsWith0029 [0xFF, 0x07, 0x10, 0x20, 0x00, 0x29] = true ∧
    ∀ k, k < ([0xFF, 0x07, 0x10, 0x20, 0x00, 0x29] : List Nat).length →
      endsWith0029 (([0xFF, 0x07, 0x10, 0x20, 0x00, 0x29] : List Nat).take k) = false :=
  C8_first_end_marker [[0xAA, 0xFF, 0x07, 0x10, 0x20, 0x00, 0x29]]
    [0xFF, 0x07, 0x10, 0x20, 0x00, 0x29] (by decide)

end UDPtrys
